import Mathlib

/-!
Shallow embedding of the recipes_book backend (Django/DRF application).

The database is modelled as lists of rows; each Django model becomes a row
structure, each serializer/view operation becomes a Lean function on the
database state.  Fallible operations return `Except String`, with the error
string taken from the message raised in the source.  `@transaction.atomic`
is modelled by the endpoint wrappers: on an error the original database is
returned (rollback), on success the database produced by the statement
sequence is returned.
-/

namespace RecipesBook

/-- Row of `api.models.Tag`. -/
structure TagRow where
  id : Nat
  name : String
  color : Option String
  slug : Option String
deriving DecidableEq, Repr

/-- Row of `api.models.Ingredient`. -/
structure IngredientRow where
  id : Nat
  name : String
  measurement_unit : String
deriving DecidableEq, Repr

/-- Row of `api.models.Recipe` (scalar columns; M2M links are separate tables). -/
structure RecipeRow where
  id : Nat
  name : String
  text : String
  image : String
  cooking_time : Int
  author : Option Nat
deriving DecidableEq, Repr

/-- Row of the implicit `Recipe.tags` many-to-many table. -/
structure RecipeTagRow where
  recipe : Nat
  tag : Nat
deriving DecidableEq, Repr

/-- Row of `api.models.IngredientRecipe` (the through table with `amount`). -/
structure IngredientRecipeRow where
  recipe : Nat
  ingredient : Nat
  amount : Int
deriving DecidableEq, Repr

/-- Row of `api.models.Favorite`. -/
structure FavoriteRow where
  recipe : Nat
  user : Nat
deriving DecidableEq, Repr

/-- Row of `api.models.ShoppingCart`. -/
structure ShoppingCartRow where
  recipe : Nat
  user : Nat
deriving DecidableEq, Repr

/-- Row of `api.models.Subscribe`. -/
structure SubscribeRow where
  author : Nat
  follower : Nat
deriving DecidableEq, Repr

/-- Row of `users.models.CustomUser`.  `is_subscribed` is the persisted
boolean column declared on the model. -/
structure UserRow where
  id : Nat
  email : String
  username : String
  first_name : String
  last_name : String
  is_subscribed : Bool
deriving DecidableEq, Repr

/-- The relational state of the application. -/
structure DB where
  users : List UserRow
  tags : List TagRow
  ingredients : List IngredientRow
  recipes : List RecipeRow
  recipeTags : List RecipeTagRow
  ingredientRecipes : List IngredientRecipeRow
  favorites : List FavoriteRow
  shoppingCarts : List ShoppingCartRow
  subscribes : List SubscribeRow
deriving DecidableEq, Repr

/-- The empty database. -/
def emptyDB : DB := ⟨[], [], [], [], [], [], [], [], []⟩

/-! Existence queries used by serializers (`.objects.filter(...).exists()`) -/

/-- Model of `Favorite.objects.filter(recipe=recipe, user=user).exists()`. -/
def favExists (db : DB) (r u : Nat) : Bool :=
  db.favorites.any (fun f => f.recipe = r && f.user = u)

/-- Model of `ShoppingCart.objects.filter(recipe=recipe, user=user).exists()`. -/
def cartExists (db : DB) (r u : Nat) : Bool :=
  db.shoppingCarts.any (fun c => c.recipe = r && c.user = u)

/-- Model of `Subscribe.objects.filter(author=author, follower=follower).exists()`. -/
def subExists (db : DB) (a f : Nat) : Bool :=
  db.subscribes.any (fun s => s.author = a && s.follower = f)

/-! Per-viewer serializer flags

The requesting identity is `Option Nat`: `none` models an unauthenticated
request (`request.user.is_authenticated` false), `some u` a user id. -/

/-- Model of `RecipeSerializer.get_is_favorited`. -/
def get_is_favorited (db : DB) (viewer : Option Nat) (r : Nat) : Bool :=
  match viewer with
  | some u => favExists db r u
  | none => false

/-- Model of `RecipeSerializer.get_is_in_shopping_cart`. -/
def get_is_in_shopping_cart (db : DB) (viewer : Option Nat) (r : Nat) : Bool :=
  match viewer with
  | some u => cartExists db r u
  | none => false

/-- Model of `CustomUserSerializer.get_is_subscribed`: computed from `Subscribe` rows
only, never from the persisted `is_subscribed` column. -/
def get_is_subscribed (db : DB) (viewer : Option Nat) (author : UserRow) : Bool :=
  match viewer with
  | some f => subExists db author.id f
  | none => false

/-- Output payload of `CustomUserSerializer`. -/
structure UserOut where
  email : String
  id : Nat
  username : String
  first_name : String
  last_name : String
  is_subscribed : Bool
deriving DecidableEq, Repr

/-- Model of `CustomUserSerializer.to_representation`: the declared fields plus the
computed `is_subscribed` method field. -/
def serializeUser (db : DB) (viewer : Option Nat) (u : UserRow) : UserOut :=
  { email := u.email
    id := u.id
    username := u.username
    first_name := u.first_name
    last_name := u.last_name
    is_subscribed := get_is_subscribed db viewer u }

/-! Recipe payload validation (`RecipeSerializer`)

An incoming payload carries tag ids, a list of `{id, amount}` ingredient
entries and the scalar fields.  DRF first runs field-level validation —
`PrimaryKeyRelatedField` resolves each id against the queryset and rejects
unknown ids, `MinValueValidator(1)` rejects amounts below 1 — and then the
serializer's `validate_<field>` hooks. -/

/-- A raw `{id, amount}` member of the `ingredients` payload list. -/
structure IngredientEntry where
  id : Nat
  amount : Int
deriving DecidableEq, Repr

/-- A raw recipe write payload. -/
structure RecipePayload where
  tags : List Nat
  ingredients : List IngredientEntry
  name : String
  image : Option String
  text : String
  cooking_time : Int
deriving DecidableEq, Repr

/-- An ingredient entry after `PrimaryKeyRelatedField` resolution: the
`ingredient` key holds the fetched `Ingredient` instance. -/
structure ResolvedEntry where
  ingredient : IngredientRow
  amount : Int
deriving DecidableEq, Repr

/-- Model of `PrimaryKeyRelatedField(queryset=Tag.objects.all(), many=True)`:
resolve every tag id or fail with the DRF invalid-pk error. -/
def resolveTags (db : DB) : List Nat → Except String (List TagRow)
  | [] => .ok []
  | i :: rest =>
    match db.tags.find? (fun t => t.id = i) with
    | none => .error "Недопустимый первичный ключ тега."
    | some t => (resolveTags db rest).map (fun l => t :: l)

/-- Field-level validation of one `IngredientRecipeSerializer` child:
`PrimaryKeyRelatedField(source=ingredient)` resolution followed by the
`MinValueValidator(1)` on `amount`. -/
def resolveEntries (db : DB) : List IngredientEntry → Except String (List ResolvedEntry)
  | [] => .ok []
  | e :: rest =>
    match db.ingredients.find? (fun i => i.id = e.id) with
    | none => .error "Недопустимый первичный ключ ингредиента."
    | some ing =>
      if e.amount < 1 then .error "Убедитесь, что это значение больше либо равно 1."
      else (resolveEntries db rest).map (fun l => ⟨ing, e.amount⟩ :: l)

/-- The duplicate scan of `RecipeSerializer.validate_tags`: Django model
instances hash and compare by primary key, so the `existing_datas` set is a
set of tag ids. -/
def dupTagCheck : List TagRow → List Nat → Except String Unit
  | [], _ => .ok ()
  | t :: rest, seen =>
    if t.id ∈ seen then .error "Тег дублируется."
    else dupTagCheck rest (t.id :: seen)

/-- Model of `RecipeSerializer.validate_tags`. -/
def validate_tags (value : List TagRow) : Except String (List TagRow) :=
  if value.isEmpty then .error "Поле Tags пустое."
  else (dupTagCheck value []).map (fun _ => value)

/-- Model of `RecipeSerializer.validate_image`. -/
def validate_image (value : Option String) : Except String String :=
  match value with
  | none => .error "Поле Image пустое."
  | some s => .ok s

/-- Constant `MIN_COOKING_TIME` from `api/serializers.py`. -/
def MIN_COOKING_TIME : Int := 1

/-- Model of `RecipeSerializer.validate_cooking_time`. -/
def validate_cooking_time (value : Int) : Except String Int :=
  if value < MIN_COOKING_TIME then .error "Поле Cooking_time меньше 1."
  else .ok value

/-- The loop of `RecipeSerializer.validate_ingredients`: per entry, fetch
the ingredient by id (`Ingredient.objects.get`), reject duplicates and
amounts below 1, and rebuild the entry from the fetched instance. -/
def validIngrGo (db : DB) : List ResolvedEntry → List Nat → Except String (List ResolvedEntry)
  | [], _ => .ok []
  | e :: rest, seen =>
    match db.ingredients.find? (fun i => i.id = e.ingredient.id) with
    | none => .error "Несуществующий ингредиент."
    | some ing =>
      if e.ingredient.id ∈ seen then .error "Ингредиент дублируется."
      else if e.amount < 1 then .error "Поле amount меньше 1."
      else (validIngrGo db rest (e.ingredient.id :: seen)).map (fun l => ⟨ing, e.amount⟩ :: l)

/-- Model of `RecipeSerializer.validate_ingredients`. -/
def validate_ingredients (db : DB) (value : List ResolvedEntry) : Except String (List ResolvedEntry) :=
  if value.isEmpty then .error "Поле Ingredients пустое."
  else validIngrGo db value []

/-- A fully validated recipe payload (`serializer.validated_data`). -/
structure ValidatedRecipe where
  tags : List TagRow
  entries : List ResolvedEntry
  name : String
  image : String
  text : String
  cooking_time : Int
deriving DecidableEq, Repr

/-- Model of `serializer.is_valid()` for `RecipeSerializer`: field-level resolution
then the `validate_<field>` hooks, stopping at the first error. -/
def runValidation (db : DB) (p : RecipePayload) : Except String ValidatedRecipe :=
  match resolveTags db p.tags with
  | .error e => .error e
  | .ok rtags =>
    match validate_tags rtags with
    | .error e => .error e
    | .ok vtags =>
      match resolveEntries db p.ingredients with
      | .error e => .error e
      | .ok rents =>
        match validate_ingredients db rents with
        | .error e => .error e
        | .ok vents =>
          match validate_image p.image with
          | .error e => .error e
          | .ok img =>
            match validate_cooking_time p.cooking_time with
            | .error e => .error e
            | .ok ct => .ok ⟨vtags, vents, p.name, img, p.text, ct⟩

/-! Recipe create / update (`RecipeSerializer.create` / `.update`) -/

/-- A fresh primary key for a new `Recipe` row. -/
def freshRecipeId (db : DB) : Nat :=
  (db.recipes.map (fun r => r.id)).foldr max 0 + 1

/-- The `(recipe, ingredient)` key guarded by the `unique_ingredientrecipe`
constraint. -/
def irKey (r : IngredientRecipeRow) : Nat × Nat := (r.recipe, r.ingredient)

/-- Model of `IngredientRecipe.objects.bulk_create`: a single insert that the
database accepts only when the `unique_ingredientrecipe` constraint holds
for the new rows, both among themselves and against the stored rows;
otherwise it raises an integrity error. -/
def bulkCreateIR (db : DB) (rows : List IngredientRecipeRow) : Except String DB :=
  if (rows.map irKey).Nodup
      && rows.all (fun r => !(db.ingredientRecipes.any (fun e => irKey e = irKey r)))
  then .ok { db with ingredientRecipes := db.ingredientRecipes ++ rows }
  else .error "IntegrityError: unique_ingredientrecipe"

/-- The statement sequence of `RecipeSerializer.create` (inside
`@transaction.atomic`): create the recipe row (the database rejects a
duplicate `name`, which is declared unique), set its tags, bulk-create the
ingredient join rows. -/
def recipeCreateTx (db : DB) (author : Option Nat) (v : ValidatedRecipe) :
    Except String (Nat × DB) :=
  if db.recipes.any (fun r => r.name = v.name) then
    .error "IntegrityError: duplicate recipe name"
  else
    let rid := freshRecipeId db
    let row : RecipeRow := ⟨rid, v.name, v.text, v.image, v.cooking_time, author⟩
    let db1 := { db with recipes := db.recipes ++ [row] }
    let db2 := { db1 with recipeTags := db1.recipeTags ++ v.tags.map (fun t => ⟨rid, t.id⟩) }
    (bulkCreateIR db2 (v.entries.map (fun e => ⟨rid, e.ingredient.id, e.amount⟩))).map
      (fun db3 => (rid, db3))

/-- The statement sequence of `RecipeSerializer.update` (inside
`@transaction.atomic`): update the scalar columns, replace the tag links
(`tags.clear(); tags.set(...)`), delete the old join rows
(`ingredients.clear()`) and bulk-create the new ones. -/
def recipeUpdateTx (db : DB) (rid : Nat) (v : ValidatedRecipe) : Except String DB :=
  if db.recipes.any (fun r => r.id ≠ rid && r.name = v.name) then
    .error "IntegrityError: duplicate recipe name"
  else if !(db.recipes.any (fun r => r.id = rid)) then
    .error "Recipe matching query does not exist."
  else
    let updRow : RecipeRow → RecipeRow := fun r =>
      if r.id = rid then
        { r with name := v.name, text := v.text, image := v.image,
                 cooking_time := v.cooking_time }
      else r
    let newLinks : List RecipeTagRow := v.tags.map (fun (t : TagRow) => ⟨rid, t.id⟩)
    let keptLinks : List RecipeTagRow := db.recipeTags.filter (fun t => t.recipe ≠ rid)
    let keptJoins : List IngredientRecipeRow :=
      db.ingredientRecipes.filter (fun ir => ir.recipe ≠ rid)
    let db1 : DB := { db with recipes := db.recipes.map updRow }
    let db2 : DB := { db1 with recipeTags := keptLinks ++ newLinks }
    let db3 : DB := { db2 with ingredientRecipes := keptJoins }
    bulkCreateIR db3 (v.entries.map (fun e => ⟨rid, e.ingredient.id, e.amount⟩))

/-- The create endpoint: validation, then the atomic transaction.  On any
error the transaction is rolled back, so the returned state is the original
database. -/
def recipeCreateEndpoint (db : DB) (author : Option Nat) (p : RecipePayload) :
    DB × Except String Nat :=
  match (runValidation db p).bind (recipeCreateTx db author) with
  | .ok (rid, db') => (db', .ok rid)
  | .error e => (db, .error e)

/-- The update endpoint on instance `rid`: validation, then the atomic
transaction, rolled back on error. -/
def recipeUpdateEndpoint (db : DB) (rid : Nat) (p : RecipePayload) :
    DB × Except String Unit :=
  match (runValidation db p).bind (recipeUpdateTx db rid) with
  | .ok db' => (db', .ok ())
  | .error e => (db, .error e)

/-! Favorite / shopping-cart toggles

`RecipeViewSet.favorite` and `.shopping_cart` run
`RecipeMinifiedSerializer.validate` (POST: reject when the membership row
exists; DELETE: reject when it does not) and then `add_obj` / `del_obj`. -/

/-- POST `/recipes/{id}/favorite/`: validate, then `Favorite.objects.create`. -/
def favoriteAdd (db : DB) (r u : Nat) : Except String DB :=
  if favExists db r u then .error "Рецепт уже в корзине/избранном."
  else .ok { db with favorites := db.favorites ++ [⟨r, u⟩] }

/-- DELETE `/recipes/{id}/favorite/`: validate, then `get(...).delete()`. -/
def favoriteDel (db : DB) (r u : Nat) : Except String DB :=
  if favExists db r u then
    .ok { db with favorites := db.favorites.eraseP (fun f => f.recipe = r && f.user = u) }
  else .error "Такого рецепта нет в корзине/избранном."

/-- POST `/recipes/{id}/shopping_cart/`. -/
def cartAdd (db : DB) (r u : Nat) : Except String DB :=
  if cartExists db r u then .error "Рецепт уже в корзине/избранном."
  else .ok { db with shoppingCarts := db.shoppingCarts ++ [⟨r, u⟩] }

/-- DELETE `/recipes/{id}/shopping_cart/`. -/
def cartDel (db : DB) (r u : Nat) : Except String DB :=
  if cartExists db r u then
    .ok { db with shoppingCarts := db.shoppingCarts.eraseP (fun c => c.recipe = r && c.user = u) }
  else .error "Такого рецепта нет в корзине/избранном."

/-! Subscription toggle (`SubscribeSerializer.validate` +
`CustomUserViewSet.subscribe`) -/

/-- POST `/users/{id}/subscribe/`: the serializer rejects an existing
subscription, then a self-subscription; on success the view creates the row. -/
def subscribePost (db : DB) (author follower : Nat) : Except String DB :=
  if subExists db author follower then .error "Вы уже подписаны."
  else if author = follower then .error "Нельзя подписаться на себя."
  else .ok { db with subscribes := db.subscribes ++ [⟨author, follower⟩] }

/-- DELETE `/users/{id}/subscribe/`: the serializer rejects a missing
subscription; on success the view deletes the fetched row. -/
def subscribeDelete (db : DB) (author follower : Nat) : Except String DB :=
  if subExists db author follower then
    .ok { db with subscribes :=
      db.subscribes.eraseP (fun s => s.author = author && s.follower = follower) }
  else .error "Несуществующая подписка."

/-! Shopping-list aggregation (`RecipeViewSet.generate_shopping_cart`)

The ORM query filters the join rows to recipes in the user's cart, joins the
ingredient to fetch `(name, measurement_unit)`, groups by that pair and sums
the amounts (`annotate(total_amount=Sum(amount))`); group order is the order
in which the keys first occur. -/

/-- The grouping key: `(ingredient__name, ingredient__measurement_unit)`. -/
abbrev AggKey := String × String

/-- Join rows belonging to recipes in the user's shopping cart, keyed by the
ingredient's `(name, measurement_unit)` via the foreign-key join. -/
def cartKeyedRows (db : DB) (u : Nat) : List (AggKey × Int) :=
  (db.ingredientRecipes.filter (fun ir =>
    db.shoppingCarts.any (fun c => c.recipe = ir.recipe && c.user = u))).filterMap
    (fun ir => (db.ingredients.find? (fun i => i.id = ir.ingredient)).map
      (fun i => ((i.name, i.measurement_unit), ir.amount)))

/-- Fold step of the GROUP BY: add one `(key, amount)` row into the running
aggregation, summing into the first entry with the same key or appending a
new group. -/
def insertAgg : List (AggKey × Int) → AggKey → Int → List (AggKey × Int)
  | [], k, a => [(k, a)]
  | (k', s) :: rest, k, a =>
    if k' = k then (k', s + a) :: rest else (k', s) :: insertAgg rest k a

/-- The GROUP BY + SUM of `generate_shopping_cart`. -/
def aggregate (rows : List (AggKey × Int)) : List (AggKey × Int) :=
  rows.foldl (fun acc r => insertAgg acc r.1 r.2) []

/-- Lookup of the running total of a key inside an aggregation list. -/
def lookupAgg (agg : List (AggKey × Int)) (k : AggKey) : Option Int :=
  (agg.find? (fun e => e.1 = k)).map (fun e => e.2)

/-- Total amount carried by one `(name, measurement_unit)` key in a keyed
row list: the reference value of the GROUP BY + SUM. -/
def sumKey (rows : List (AggKey × Int)) (k : AggKey) : Int :=
  ((rows.filter (fun r => r.1 = k)).map (fun r => r.2)).sum

/-- One output line: `f'{index + 1}. {name}: {total} {unit}'`. -/
def shoppingLine (index : Nat) (e : AggKey × Int) : String :=
  toString (index + 1) ++ ". " ++ e.1.1 ++ ": " ++ toString e.2 ++ " " ++ e.1.2

/-- Model of `RecipeViewSet.generate_shopping_cart`. -/
def generate_shopping_cart (db : DB) (u : Nat) : String :=
  let agg := aggregate (cartKeyedRows db u)
  "Список покупок: \n\n" ++
    String.intercalate "\n" (agg.enum.map (fun p => shoppingLine p.1 p.2))

/-! Bulk reference-data loaders
(`api/management/commands/load_ingredients.py`, `load_tags.py`) -/

/-- An ingredient record from `ingredients.json` (no primary key yet). -/
structure IngredientRecord where
  name : String
  measurement_unit : String
deriving DecidableEq, Repr

/-- A tag record from `tags.json`. -/
structure TagRecord where
  name : String
  color : Option String
  slug : String
deriving DecidableEq, Repr

/-- Model of `load_ingredients.Command.handle`: insert each record whose `name` is
not yet in the table, skip the rest. -/
def load_ingredients (table : List IngredientRecord) (records : List IngredientRecord) :
    List IngredientRecord :=
  records.foldl
    (fun acc r => if acc.any (fun i => i.name = r.name) then acc else acc ++ [r]) table

/-- Model of `load_tags.Command.handle`: insert each record whose `slug` is not yet
in the table, skip the rest. -/
def load_tags (table : List TagRecord) (records : List TagRecord) : List TagRecord :=
  records.foldl
    (fun acc r => if acc.any (fun t => t.slug = r.slug) then acc else acc ++ [r]) table

/-! Storage-layer uniqueness invariants (`Meta.constraints`) -/

/-- The four `UniqueConstraint`s of `api/models.py`: `unique_ingredientrecipe`,
`unique_favorite`, `unique_subscribe`, `unique_shoping_cart`. -/
def DBinv (db : DB) : Prop :=
  (db.ingredientRecipes.map irKey).Nodup ∧
  (db.favorites.map (fun f => (f.recipe, f.user))).Nodup ∧
  (db.shoppingCarts.map (fun c => (c.recipe, c.user))).Nodup ∧
  (db.subscribes.map (fun s => (s.author, s.follower))).Nodup

instance (db : DB) : Decidable (DBinv db) := by
  unfold DBinv; infer_instance

/-! Concrete states used to evaluate the development -/

/-- The state of the spec's shopping-list example: recipe A holds Salt
(amount 2) and Pepper (amount 1), recipe B holds Salt (amount 3), and both
recipes sit in user 7's cart. -/
def cartExampleDB : DB :=
  { emptyDB with
    ingredients := [⟨1, "Salt", "g"⟩, ⟨2, "Pepper", "g"⟩]
    recipes := [⟨1, "A", "", "img", 1, none⟩, ⟨2, "B", "", "img", 1, none⟩]
    ingredientRecipes := [⟨1, 1, 2⟩, ⟨1, 2, 1⟩, ⟨2, 1, 3⟩]
    shoppingCarts := [⟨1, 7⟩, ⟨2, 7⟩] }

/-- A one-tag, one-ingredient state used to evaluate recipe creation. -/
def createExampleDB : DB :=
  { emptyDB with
    tags := [⟨1, "breakfast", none, none⟩]
    ingredients := [⟨1, "Salt", "g"⟩] }

/-- A well-formed payload against `createExampleDB`. -/
def okPayload : RecipePayload :=
  { tags := [1]
    ingredients := [⟨1, 2⟩]
    name := "Porridge"
    image := some "img"
    text := "boil"
    cooking_time := 5 }

/-- A payload with an empty tag list, used to exercise C2. -/
def badPayload : RecipePayload := { okPayload with tags := [] }

end RecipesBook

namespace RecipesBook

/-! ## Theorems -/

/-- C6: For every recipe, serializing for an unauthenticated viewer
yields `is_favorited = false` and `is_in_shopping_cart = false`; for an
authenticated viewer `u`, `is_favorited` is true iff a `Favorite` row for
`(recipe, u)` exists and `is_in_shopping_cart` is true iff a `ShoppingCart`
row for `(recipe, u)` exists. -/
theorem C6_viewer_flags : ∀ (db : DB) (r u : Nat),
    get_is_favorited db none r = false ∧
    get_is_in_shopping_cart db none r = false ∧
    (get_is_favorited db (some u) r = true ↔
      ∃ f ∈ db.favorites, f.recipe = r ∧ f.user = u) ∧
    (get_is_in_shopping_cart db (some u) r = true ↔
      ∃ c ∈ db.shoppingCarts, c.recipe = r ∧ c.user = u) := by
  intro db r u
  refine ⟨rfl, rfl, ?_, ?_⟩ <;>
    simp [get_is_favorited, get_is_in_shopping_cart, favExists, cartExists,
      List.any_eq_true, Bool.and_eq_true, decide_eq_true_eq]

/-- C10: The serialized `is_subscribed` of a user does not depend on
the persisted `is_subscribed` column: flipping that column changes nothing
in the output; the output flag is false for unauthenticated requesters and,
for a requester `f`, is true iff a `Subscribe` row `(author = u, follower
= f)` exists. -/
theorem C10_is_subscribed_noninterference :
    ∀ (db : DB) (viewer : Option Nat) (u : UserRow) (b : Bool),
    serializeUser db viewer { u with is_subscribed := b } = serializeUser db viewer u ∧
    (serializeUser db none u).is_subscribed = false ∧
    ∀ f, ((serializeUser db (some f) u).is_subscribed = true ↔
      ∃ s ∈ db.subscribes, s.author = u.id ∧ s.follower = f) := by
  intro db viewer u b
  refine ⟨?_, rfl, ?_⟩
  · cases viewer <;> rfl
  · intro f
    simp [serializeUser, get_is_subscribed, subExists,
      List.any_eq_true, Bool.and_eq_true, decide_eq_true_eq]

/-- C5: Subscribing when already subscribed, unsubscribing when not
subscribed, and subscribing to oneself are rejected, each canonical case
with its own distinct error message, and a self-subscription always fails
regardless of the prior subscription state. -/
theorem C5_subscription_toggle : ∀ (db : DB) (a f : Nat),
    (subExists db a f = true → subscribePost db a f = .error "Вы уже подписаны.") ∧
    (subExists db a f = false → a = f →
      subscribePost db a f = .error "Нельзя подписаться на себя.") ∧
    (subExists db a f = false →
      subscribeDelete db a f = .error "Несуществующая подписка.") ∧
    (a = f → ∃ m, subscribePost db a f = .error m) ∧
    (("Вы уже подписаны." : String) ≠ "Нельзя подписаться на себя." ∧
     ("Вы уже подписаны." : String) ≠ "Несуществующая подписка." ∧
     ("Нельзя подписаться на себя." : String) ≠ "Несуществующая подписка.") := by
  intro db a f
  refine ⟨?_, ?_, ?_, ?_, by decide, by decide, by decide⟩
  · intro h; simp [subscribePost, h]
  · intro h hf; subst hf; simp [subscribePost, h]
  · intro h; simp [subscribeDelete, h]
  · intro hf
    unfold subscribePost
    rcases hsub : subExists db a f with _ | _
    · exact ⟨"Нельзя подписаться на себя.", by simp [hsub, hf]⟩
    · exact ⟨"Вы уже подписаны.", by simp [hsub]⟩

/-- Witness for C5 at a concrete state: in the empty database user 1
subscribing to themself is rejected with the self-subscription message. -/
theorem C5_subscription_toggle_witness :
    subscribePost emptyDB 1 1 = .error "Нельзя подписаться на себя." :=
  (C5_subscription_toggle emptyDB 1 1).2.1 rfl rfl

/-- C4: Favorite and shopping-cart toggles: adding fails when the
membership row exists and succeeds (appending the row) otherwise; removing
fails when the row does not exist and succeeds otherwise; after a
successful add, a duplicate add fails and exactly one matching row exists. -/
theorem C4_membership_toggle : ∀ (db : DB) (r u : Nat),
    (favExists db r u = true → ∃ m, favoriteAdd db r u = .error m) ∧
    (favExists db r u = false →
      favoriteAdd db r u = .ok { db with favorites := db.favorites ++ [⟨r, u⟩] }) ∧
    (favExists db r u = true → ∃ db', favoriteDel db r u = .ok db') ∧
    (favExists db r u = false → ∃ m, favoriteDel db r u = .error m) ∧
    (cartExists db r u = true → ∃ m, cartAdd db r u = .error m) ∧
    (cartExists db r u = false →
      cartAdd db r u = .ok { db with shoppingCarts := db.shoppingCarts ++ [⟨r, u⟩] }) ∧
    (cartExists db r u = true → ∃ db', cartDel db r u = .ok db') ∧
    (cartExists db r u = false → ∃ m, cartDel db r u = .error m) ∧
    (favExists db r u = false → ∀ db', favoriteAdd db r u = .ok db' →
      (∃ m, favoriteAdd db' r u = .error m) ∧
      db'.favorites.countP (fun x => x.recipe = r && x.user = u) = 1) ∧
    (cartExists db r u = false → ∀ db', cartAdd db r u = .ok db' →
      (∃ m, cartAdd db' r u = .error m) ∧
      db'.shoppingCarts.countP (fun x => x.recipe = r && x.user = u) = 1) := by
  intro db r u
  refine ⟨?_, ?_, ?_, ?_, ?_, ?_, ?_, ?_, ?_, ?_⟩
  · intro h
    exact ⟨"Рецепт уже в корзине/избранном.", by simp [favoriteAdd, h]⟩
  · intro h; simp [favoriteAdd, h]
  · intro h
    exact ⟨{ db with favorites :=
      db.favorites.eraseP (fun f => f.recipe = r && f.user = u) },
      by simp [favoriteDel, h]⟩
  · intro h
    exact ⟨"Такого рецепта нет в корзине/избранном.", by simp [favoriteDel, h]⟩
  · intro h
    exact ⟨"Рецепт уже в корзине/избранном.", by simp [cartAdd, h]⟩
  · intro h; simp [cartAdd, h]
  · intro h
    exact ⟨{ db with shoppingCarts :=
      db.shoppingCarts.eraseP (fun c => c.recipe = r && c.user = u) },
      by simp [cartDel, h]⟩
  · intro h
    exact ⟨"Такого рецепта нет в корзине/избранном.", by simp [cartDel, h]⟩
  · intro h db' hok
    have hdb' : db' = { db with favorites := db.favorites ++ [⟨r, u⟩] } := by
      simp [favoriteAdd, h] at hok
      exact hok.symm
    subst hdb'
    have hex : favExists { db with favorites := db.favorites ++ [⟨r, u⟩] } r u = true := by
      simp [favExists]
    have hzero : db.favorites.countP (fun x => x.recipe = r && x.user = u) = 0 := by
      rw [List.countP_eq_zero]
      intro a ha
      have := (List.any_eq_false).mp h a ha
      simpa using this
    refine ⟨⟨"Рецепт уже в корзине/избранном.", by simp [favoriteAdd, hex]⟩, ?_⟩
    simp [List.countP_append, hzero, List.countP_cons]
  · intro h db' hok
    have hdb' : db' = { db with shoppingCarts := db.shoppingCarts ++ [⟨r, u⟩] } := by
      simp [cartAdd, h] at hok
      exact hok.symm
    subst hdb'
    have hex : cartExists { db with shoppingCarts := db.shoppingCarts ++ [⟨r, u⟩] } r u = true := by
      simp [cartExists]
    have hzero : db.shoppingCarts.countP (fun x => x.recipe = r && x.user = u) = 0 := by
      rw [List.countP_eq_zero]
      intro a ha
      have := (List.any_eq_false).mp h a ha
      simpa using this
    refine ⟨⟨"Рецепт уже в корзине/избранном.", by simp [cartAdd, hex]⟩, ?_⟩
    simp [List.countP_append, hzero, List.countP_cons]

/-- Inversion of `Except.bind` at a successful result. -/
lemma except_bind_ok {α β : Type} {x : Except String α} {g : α → Except String β} {b : β}
    (h : x.bind g = .ok b) : ∃ a, x = .ok a ∧ g a = .ok b := by
  cases x with
  | error e => simp [Except.bind] at h
  | ok a => exact ⟨a, rfl, by simpa [Except.bind] using h⟩

/-- Inversion of `Except.map` at a successful result. -/
lemma except_map_ok {α β : Type} {g : α → β} {x : Except String α} {b : β}
    (h : x.map g = .ok b) : ∃ a, x = .ok a ∧ g a = b := by
  cases x with
  | error e => simp [Except.map] at h
  | ok a => exact ⟨a, rfl, by simpa [Except.map] using h⟩

/-- Appending a fresh element keeps a list duplicate-free. -/
lemma nodup_concat_of_not_mem {β : Type} {l : List β} {b : β}
    (h : l.Nodup) (hb : b ∉ l) : (l ++ [b]).Nodup := by
  simp [List.nodup_append, h, hb]

/-- A successful `bulkCreateIR` appends rows whose keys collide neither
with each other nor with the stored rows; it touches no other table. -/
lemma bulkCreateIR_inv (db : DB) (rows : List IngredientRecipeRow) (db' : DB)
    (h : bulkCreateIR db rows = .ok db')
    (hinv : (db.ingredientRecipes.map irKey).Nodup) :
    (db'.ingredientRecipes.map irKey).Nodup ∧
    db'.favorites = db.favorites ∧ db'.shoppingCarts = db.shoppingCarts ∧
    db'.subscribes = db.subscribes := by
  unfold bulkCreateIR at h
  split at h
  case isTrue hc =>
    injection h with h2
    subst h2
    rw [Bool.and_eq_true] at hc
    have hnodup : (rows.map irKey).Nodup := of_decide_eq_true hc.1
    have hdisj : ∀ r ∈ rows, ∀ e ∈ db.ingredientRecipes, ¬ irKey e = irKey r := by
      intro r hr e he
      have := List.all_eq_true.mp hc.2 r hr
      simp only [Bool.not_eq_true', List.any_eq_false, decide_eq_true_eq] at this
      exact this e he
    refine ⟨?_, rfl, rfl, rfl⟩
    rw [List.map_append, List.nodup_append]
    refine ⟨hinv, hnodup, ?_⟩
    intro a ha1 ha2
    obtain ⟨e, he, hke⟩ := List.mem_map.mp ha1
    obtain ⟨r, hr, hkr⟩ := List.mem_map.mp ha2
    exact hdisj r hr e he (hke.trans hkr.symm)
  case isFalse hc => exact Except.noConfusion h

/-- A successful `recipeCreateTx` preserves the uniqueness invariants. -/
lemma recipeCreateTx_inv (db : DB) (author : Option Nat) (v : ValidatedRecipe)
    (rid : Nat) (db' : DB) (h : recipeCreateTx db author v = .ok (rid, db'))
    (hinv : DBinv db) : DBinv db' := by
  simp only [recipeCreateTx] at h
  split at h
  case isTrue => exact Except.noConfusion h
  case isFalse hc =>
    obtain ⟨db3, hb, heq⟩ := except_map_ok h
    have h3 : db3 = db' := congrArg Prod.snd heq
    subst h3
    obtain ⟨h1, h2, hsc, h4⟩ := hinv
    obtain ⟨hn, hf, hs, hb4⟩ := bulkCreateIR_inv _ _ _ hb h1
    exact ⟨hn, hf ▸ h2, hs ▸ hsc, hb4 ▸ h4⟩

/-- A successful `recipeUpdateTx` preserves the uniqueness invariants. -/
lemma recipeUpdateTx_inv (db : DB) (rid : Nat) (v : ValidatedRecipe) (db' : DB)
    (h : recipeUpdateTx db rid v = .ok db') (hinv : DBinv db) : DBinv db' := by
  simp only [recipeUpdateTx] at h
  split at h
  case isTrue => exact Except.noConfusion h
  case isFalse =>
    split at h
    case isTrue => exact Except.noConfusion h
    case isFalse =>
      obtain ⟨h1, h2, hsc, h4⟩ := hinv
      have hkept : ((db.ingredientRecipes.filter (fun ir => ir.recipe ≠ rid)).map irKey).Nodup :=
        List.Nodup.sublist ((List.filter_sublist _).map irKey) h1
      obtain ⟨hn, hf, hs, hb4⟩ := bulkCreateIR_inv _ _ _ h hkept
      exact ⟨hn, hf ▸ h2, hs ▸ hsc, hb4 ▸ h4⟩

/-- C8: every reachable-state transition of the application — the favorite,
cart and subscription toggles and the recipe create/update endpoints —
preserves the storage-layer uniqueness invariants: no duplicate
`(recipe, ingredient)` join key, `(recipe, user)` favorite or cart key, or
`(author, follower)` subscription key. -/
theorem C8_uniqueness_invariants : ∀ (db : DB), DBinv db →
    (∀ r u db', favoriteAdd db r u = .ok db' → DBinv db') ∧
    (∀ r u db', favoriteDel db r u = .ok db' → DBinv db') ∧
    (∀ r u db', cartAdd db r u = .ok db' → DBinv db') ∧
    (∀ r u db', cartDel db r u = .ok db' → DBinv db') ∧
    (∀ a f db', subscribePost db a f = .ok db' → DBinv db') ∧
    (∀ a f db', subscribeDelete db a f = .ok db' → DBinv db') ∧
    (∀ author p, DBinv (recipeCreateEndpoint db author p).1) ∧
    (∀ rid p, DBinv (recipeUpdateEndpoint db rid p).1) := by
  intro db hinv
  obtain ⟨h1, h2, h3, h4⟩ := hinv
  refine ⟨?_, ?_, ?_, ?_, ?_, ?_, ?_, ?_⟩
  · intro r u db' hok
    unfold favoriteAdd at hok
    split at hok
    case isTrue => exact Except.noConfusion hok
    case isFalse hguard =>
      injection hok with he
      subst he
      refine ⟨h1, ?_, h3, h4⟩
      rw [List.map_append]
      apply nodup_concat_of_not_mem h2
      simp only [Bool.not_eq_true] at hguard
      unfold favExists at hguard
      rw [List.any_eq_false] at hguard
      simp only [List.mem_map]
      rintro ⟨x, hx, hkey⟩
      have hne := hguard x hx
      simp only [Prod.mk.injEq] at hkey
      simp [hkey.1, hkey.2] at hne
  · intro r u db' hok
    unfold favoriteDel at hok
    split at hok
    case isTrue =>
      injection hok with he
      subst he
      exact ⟨h1, List.Nodup.sublist ((List.eraseP_sublist _).map _) h2, h3, h4⟩
    case isFalse => exact Except.noConfusion hok
  · intro r u db' hok
    unfold cartAdd at hok
    split at hok
    case isTrue => exact Except.noConfusion hok
    case isFalse hguard =>
      injection hok with he
      subst he
      refine ⟨h1, h2, ?_, h4⟩
      rw [List.map_append]
      apply nodup_concat_of_not_mem h3
      simp only [Bool.not_eq_true] at hguard
      unfold cartExists at hguard
      rw [List.any_eq_false] at hguard
      simp only [List.mem_map]
      rintro ⟨x, hx, hkey⟩
      have hne := hguard x hx
      simp only [Prod.mk.injEq] at hkey
      simp [hkey.1, hkey.2] at hne
  · intro r u db' hok
    unfold cartDel at hok
    split at hok
    case isTrue =>
      injection hok with he
      subst he
      exact ⟨h1, h2, List.Nodup.sublist ((List.eraseP_sublist _).map _) h3, h4⟩
    case isFalse => exact Except.noConfusion hok
  · intro a f db' hok
    unfold subscribePost at hok
    split at hok
    case isTrue => exact Except.noConfusion hok
    case isFalse hguard =>
      split at hok
      case isTrue => exact Except.noConfusion hok
      case isFalse =>
        injection hok with he
        subst he
        refine ⟨h1, h2, h3, ?_⟩
        rw [List.map_append]
        apply nodup_concat_of_not_mem h4
        simp only [Bool.not_eq_true] at hguard
        unfold subExists at hguard
        rw [List.any_eq_false] at hguard
        simp only [List.mem_map]
        rintro ⟨x, hx, hkey⟩
        have hne := hguard x hx
        simp only [Prod.mk.injEq] at hkey
        simp [hkey.1, hkey.2] at hne
  · intro a f db' hok
    unfold subscribeDelete at hok
    split at hok
    case isTrue =>
      injection hok with he
      subst he
      exact ⟨h1, h2, h3, List.Nodup.sublist ((List.eraseP_sublist _).map _) h4⟩
    case isFalse => exact Except.noConfusion hok
  · intro author p
    unfold recipeCreateEndpoint
    cases hb : (runValidation db p).bind (recipeCreateTx db author) with
    | error e => simp only [hb]; exact ⟨h1, h2, h3, h4⟩
    | ok x =>
      simp only [hb]
      obtain ⟨v, _, ht⟩ := except_bind_ok hb
      exact recipeCreateTx_inv db author v x.1 x.2 (by rwa [← Prod.mk.eta (p := x)] at ht)
        ⟨h1, h2, h3, h4⟩
  · intro rid p
    unfold recipeUpdateEndpoint
    cases hb : (runValidation db p).bind (recipeUpdateTx db rid) with
    | error e => simp only [hb]; exact ⟨h1, h2, h3, h4⟩
    | ok x =>
      simp only [hb]
      obtain ⟨v, _, ht⟩ := except_bind_ok hb
      exact recipeUpdateTx_inv db rid v x ht ⟨h1, h2, h3, h4⟩

/-- Witness for C8 at a concrete state: the state reached by adding
favorite `(1, 2)` to the empty database satisfies the uniqueness
invariants. -/
theorem C8_uniqueness_invariants_witness :
    DBinv { emptyDB with favorites := [⟨1, 2⟩] } :=
  (C8_uniqueness_invariants emptyDB (by decide)).1 1 2
    { emptyDB with favorites := [⟨1, 2⟩] } rfl

/-- Shape of a successful `recipeCreateTx`: the recipe row, its tag links
and its ingredient join rows are all appended in the same transaction. -/
lemma recipeCreateTx_ok_shape (db : DB) (author : Option Nat) (v : ValidatedRecipe)
    (rid : Nat) (db' : DB) (h : recipeCreateTx db author v = .ok (rid, db')) :
    rid = freshRecipeId db ∧
    db' = { db with
      recipes := db.recipes ++ [⟨rid, v.name, v.text, v.image, v.cooking_time, author⟩],
      recipeTags := db.recipeTags ++ v.tags.map (fun t => ⟨rid, t.id⟩),
      ingredientRecipes := db.ingredientRecipes ++
        v.entries.map (fun e => ⟨rid, e.ingredient.id, e.amount⟩) } := by
  simp only [recipeCreateTx] at h
  split at h
  case isTrue => exact Except.noConfusion h
  case isFalse =>
    obtain ⟨db3, hb, heq⟩ := except_map_ok h
    have hr : freshRecipeId db = rid := congrArg Prod.fst heq
    have h3 : db3 = db' := congrArg Prod.snd heq
    subst hr
    refine ⟨rfl, ?_⟩
    unfold bulkCreateIR at hb
    split at hb
    case isTrue =>
      injection hb with hb2
      rw [← h3, ← hb2]
    case isFalse => exact Except.noConfusion hb

/-- Shape of a successful `recipeUpdateTx`: the scalar columns are updated
and the tag links and join rows are replaced wholesale, all in the same
transaction. -/
lemma recipeUpdateTx_ok_shape (db : DB) (rid : Nat) (v : ValidatedRecipe) (db' : DB)
    (h : recipeUpdateTx db rid v = .ok db') :
    db' = { db with
      recipes := db.recipes.map (fun r => if r.id = rid then
        { r with name := v.name, text := v.text, image := v.image,
                 cooking_time := v.cooking_time } else r),
      recipeTags := db.recipeTags.filter (fun t => t.recipe ≠ rid) ++
        v.tags.map (fun t => ⟨rid, t.id⟩),
      ingredientRecipes := db.ingredientRecipes.filter (fun ir => ir.recipe ≠ rid) ++
        v.entries.map (fun e => ⟨rid, e.ingredient.id, e.amount⟩) } := by
  simp only [recipeUpdateTx] at h
  split at h
  case isTrue => exact Except.noConfusion h
  case isFalse =>
    split at h
    case isTrue => exact Except.noConfusion h
    case isFalse =>
      unfold bulkCreateIR at h
      split at h
      case isTrue =>
        injection h with h2
        rw [← h2]
      case isFalse => exact Except.noConfusion h

/-- C1: recipe creation and update are atomic.  Whenever the endpoint
reports an error — validation or any statement of the transaction — the
resulting state is exactly the prior state; whenever it succeeds, the
recipe row, the full tag link set and all ingredient join rows of the
validated payload are committed together in one state transition. -/
theorem C1_atomic_create_update :
    ∀ (db : DB) (author : Option Nat) (p : RecipePayload) (rid0 : Nat),
    (∀ m, (recipeCreateEndpoint db author p).2 = .error m →
      (recipeCreateEndpoint db author p).1 = db) ∧
    (∀ rid, (recipeCreateEndpoint db author p).2 = .ok rid →
      ∃ v, runValidation db p = .ok v ∧ rid = freshRecipeId db ∧
        (recipeCreateEndpoint db author p).1 = { db with
          recipes := db.recipes ++ [⟨rid, v.name, v.text, v.image, v.cooking_time, author⟩],
          recipeTags := db.recipeTags ++ v.tags.map (fun t => ⟨rid, t.id⟩),
          ingredientRecipes := db.ingredientRecipes ++
            v.entries.map (fun e => ⟨rid, e.ingredient.id, e.amount⟩) }) ∧
    (∀ m, (recipeUpdateEndpoint db rid0 p).2 = .error m →
      (recipeUpdateEndpoint db rid0 p).1 = db) ∧
    ((recipeUpdateEndpoint db rid0 p).2 = .ok () →
      ∃ v, runValidation db p = .ok v ∧
        (recipeUpdateEndpoint db rid0 p).1 = { db with
          recipes := db.recipes.map (fun r => if r.id = rid0 then
            { r with name := v.name, text := v.text, image := v.image,
                     cooking_time := v.cooking_time } else r),
          recipeTags := db.recipeTags.filter (fun t => t.recipe ≠ rid0) ++
            v.tags.map (fun t => ⟨rid0, t.id⟩),
          ingredientRecipes := db.ingredientRecipes.filter (fun ir => ir.recipe ≠ rid0) ++
            v.entries.map (fun e => ⟨rid0, e.ingredient.id, e.amount⟩) }) := by
  intro db author p rid0
  refine ⟨?_, ?_, ?_, ?_⟩
  · intro m hm
    unfold recipeCreateEndpoint at hm ⊢
    cases hb : (runValidation db p).bind (recipeCreateTx db author) with
    | error e => simp only [hb]
    | ok x => rw [hb] at hm; exact Except.noConfusion hm
  · intro rid hok
    unfold recipeCreateEndpoint at hok ⊢
    cases hb : (runValidation db p).bind (recipeCreateTx db author) with
    | error e => rw [hb] at hok; exact Except.noConfusion hok
    | ok x =>
      rw [hb] at hok
      injection hok with hx
      obtain ⟨v, hv, ht⟩ := except_bind_ok hb
      rw [← Prod.mk.eta (p := x)] at ht
      obtain ⟨hrid, hshape⟩ := recipeCreateTx_ok_shape db author v x.1 x.2 ht
      refine ⟨v, hv, hx ▸ hrid, ?_⟩
      simp only [hb]
      rw [← hx]
      exact hshape
  · intro m hm
    unfold recipeUpdateEndpoint at hm ⊢
    cases hb : (runValidation db p).bind (recipeUpdateTx db rid0) with
    | error e => simp only [hb]
    | ok x => rw [hb] at hm; exact Except.noConfusion hm
  · intro hok
    unfold recipeUpdateEndpoint at hok ⊢
    cases hb : (runValidation db p).bind (recipeUpdateTx db rid0) with
    | error e => rw [hb] at hok; exact Except.noConfusion hok
    | ok x =>
      obtain ⟨v, hv, ht⟩ := except_bind_ok hb
      refine ⟨v, hv, ?_⟩
      simp only [hb]
      exact recipeUpdateTx_ok_shape db rid0 v x ht

/-- Witness for C1 at a concrete state: creating `okPayload` in
`createExampleDB` succeeds with id 1 and commits the recipe row, its tag
link and its join row together. -/
theorem C1_atomic_create_update_witness :
    ∃ v, runValidation createExampleDB okPayload = .ok v ∧ (1 : Nat) = freshRecipeId createExampleDB ∧
      (recipeCreateEndpoint createExampleDB none okPayload).1 = { createExampleDB with
        recipes := createExampleDB.recipes ++ [⟨1, v.name, v.text, v.image, v.cooking_time, none⟩],
        recipeTags := createExampleDB.recipeTags ++ v.tags.map (fun t => ⟨1, t.id⟩),
        ingredientRecipes := createExampleDB.ingredientRecipes ++
          v.entries.map (fun e => ⟨1, e.ingredient.id, e.amount⟩) } :=
  (C1_atomic_create_update createExampleDB none okPayload 0).2.1 1 rfl

/-- Unfolding step of `load_ingredients`: one record is inserted when its
name is absent and skipped when it is present. -/
lemma load_ingredients_cons (table : List IngredientRecord) (r : IngredientRecord)
    (rs : List IngredientRecord) :
    load_ingredients table (r :: rs) =
      (if table.any (fun i => i.name = r.name) then load_ingredients table rs
       else load_ingredients (table ++ [r]) rs) := by
  by_cases h : table.any (fun i => i.name = r.name) = true
  · simp only [load_ingredients, List.foldl_cons, if_pos h]
  · simp only [load_ingredients, List.foldl_cons, if_neg h]

/-- Unfolding step of `load_tags`: one record is inserted when its slug is
absent and skipped when it is present. -/
lemma load_tags_cons (table : List TagRecord) (t : TagRecord) (ts : List TagRecord) :
    load_tags table (t :: ts) =
      (if table.any (fun x => x.slug = t.slug) then load_tags table ts
       else load_tags (table ++ [t]) ts) := by
  by_cases h : table.any (fun x => x.slug = t.slug) = true
  · simp only [load_tags, List.foldl_cons, if_pos h]
  · simp only [load_tags, List.foldl_cons, if_neg h]

/-- The ingredient loader preserves distinctness of names. -/
lemma load_ingredients_nodup : ∀ (rs : List IngredientRecord) (table : List IngredientRecord),
    (table.map (fun i => i.name)).Nodup →
    ((load_ingredients table rs).map (fun i => i.name)).Nodup := by
  intro rs
  induction rs with
  | nil => intro table h; simpa [load_ingredients] using h
  | cons r rs ih =>
    intro table h
    rw [load_ingredients_cons]
    by_cases hc : table.any (fun i => i.name = r.name)
    · simpa [hc] using ih table h
    · simp only [hc, if_false]
      apply ih
      have hnotin : r.name ∉ table.map (fun i => i.name) := by
        simp only [Bool.not_eq_true, List.any_eq_false, decide_eq_true_eq] at hc
        simp only [List.mem_map]
        rintro ⟨x, hx, heq⟩
        exact hc x hx heq
      simpa [List.nodup_append, h] using hnotin

/-- The tag loader preserves distinctness of slugs. -/
lemma load_tags_nodup : ∀ (ts : List TagRecord) (table : List TagRecord),
    (table.map (fun t => t.slug)).Nodup →
    ((load_tags table ts).map (fun t => t.slug)).Nodup := by
  intro ts
  induction ts with
  | nil => intro table h; simpa [load_tags] using h
  | cons t ts ih =>
    intro table h
    rw [load_tags_cons]
    by_cases hc : table.any (fun x => x.slug = t.slug)
    · simpa [hc] using ih table h
    · simp only [hc, if_false]
      apply ih
      have hnotin : t.slug ∉ table.map (fun x => x.slug) := by
        simp only [Bool.not_eq_true, List.any_eq_false, decide_eq_true_eq] at hc
        simp only [List.mem_map]
        rintro ⟨x, hx, heq⟩
        exact hc x hx heq
      simpa [List.nodup_append, h] using hnotin

/-- Counterexample to C7: the tag loader deduplicates by slug, not by name.
A record whose name `X` is already in the table but whose slug `b` is new is
inserted, where the claim says it must be skipped. -/
theorem C7_tag_loader_counterexample :
    (⟨"X", none, "b"⟩ : TagRecord).name = (⟨"X", none, "a"⟩ : TagRecord).name ∧
    load_tags [⟨"X", none, "a"⟩] [⟨"X", none, "b"⟩]
      = [⟨"X", none, "a"⟩, ⟨"X", none, "b"⟩] ∧
    load_tags [⟨"X", none, "a"⟩] [⟨"X", none, "b"⟩] ≠ [⟨"X", none, "a"⟩] := by
  refine ⟨rfl, by decide, by decide⟩

/-- C7 (amended): the ingredient loader inserts each record whose name is
not yet present and skips records whose name is present; the tag loader
keys on the slug instead: it inserts each record whose slug is not yet
present and skips records whose slug is present.  Both loaders preserve
distinctness of their respective key. -/
theorem C7_loader_dedup :
    ∀ (table : List IngredientRecord) (r : IngredientRecord) (rs : List IngredientRecord)
      (ttable : List TagRecord) (t : TagRecord) (ts : List TagRecord),
    load_ingredients table [] = table ∧
    load_ingredients table (r :: rs) =
      (if table.any (fun i => i.name = r.name) then load_ingredients table rs
       else load_ingredients (table ++ [r]) rs) ∧
    ((table.map (fun i => i.name)).Nodup →
      ((load_ingredients table rs).map (fun i => i.name)).Nodup) ∧
    load_tags ttable [] = ttable ∧
    load_tags ttable (t :: ts) =
      (if ttable.any (fun x => x.slug = t.slug) then load_tags ttable ts
       else load_tags (ttable ++ [t]) ts) ∧
    ((ttable.map (fun x => x.slug)).Nodup →
      ((load_tags ttable ts).map (fun x => x.slug)).Nodup) := by
  intro table r rs ttable t ts
  exact ⟨rfl, load_ingredients_cons table r rs, load_ingredients_nodup rs table,
    rfl, load_tags_cons ttable t ts, load_tags_nodup ts ttable⟩

/-- Witness for C7 at concrete inputs: loading `Salt` (already present,
other unit) and `Sugar` into a one-row ingredient table keeps names
distinct. -/
theorem C7_loader_dedup_witness :
    ((load_ingredients [⟨"Salt", "g"⟩] [⟨"Salt", "kg"⟩, ⟨"Sugar", "g"⟩]).map
      (fun i => i.name)).Nodup :=
  (C7_loader_dedup [⟨"Salt", "g"⟩] ⟨"Salt", "kg"⟩ [⟨"Salt", "kg"⟩, ⟨"Sugar", "g"⟩]
    [] ⟨"X", none, "a"⟩ []).2.2.1 (by decide)

/-- Tag resolution is id-faithful: on success the resolved tags carry
exactly the requested ids, in order. -/
lemma resolveTags_ok_ids : ∀ (db : DB) (l : List Nat) (ts : List TagRow),
    resolveTags db l = .ok ts → ts.map (fun t => t.id) = l := by
  intro db l
  induction l with
  | nil =>
    intro ts h
    injection h with h2
    rw [← h2]
    rfl
  | cons i rest ih =>
    intro ts h
    unfold resolveTags at h
    cases hf : db.tags.find? (fun t => t.id = i) with
    | none => rw [hf] at h; exact Except.noConfusion h
    | some t =>
      rw [hf] at h
      obtain ⟨l', hl', heq⟩ := except_map_ok h
      have hid : t.id = i := by
        have := List.find?_some hf
        simpa using this
      rw [← heq]
      simp [ih l' hl', hid]

/-- A successful duplicate scan certifies distinct tag ids, all of them
outside the starting `seen` set. -/
lemma dupTagCheck_ok : ∀ (value : List TagRow) (seen : List Nat) (x : Unit),
    dupTagCheck value seen = .ok x →
    (value.map (fun t => t.id)).Nodup ∧
    ∀ i ∈ value.map (fun t => t.id), i ∉ seen := by
  intro value
  induction value with
  | nil => intro seen x _; simp
  | cons t rest ih =>
    intro seen x h
    unfold dupTagCheck at h
    split at h
    case isTrue => exact Except.noConfusion h
    case isFalse hseen =>
      obtain ⟨hnodup, hout⟩ := ih (t.id :: seen) x h
      constructor
      · rw [List.map_cons, List.nodup_cons]
        refine ⟨?_, hnodup⟩
        intro hmem
        exact hout t.id hmem (List.mem_cons_self t.id seen)
      · intro i hi
        rw [List.map_cons, List.mem_cons] at hi
        rcases hi with hi | hi
        · rw [hi]; exact hseen
        · intro hin
          exact hout i hi (List.mem_cons_of_mem _ hin)

/-- A successful `validate_tags` certifies a non-empty list with distinct
tag ids. -/
lemma validate_tags_ok (value res : List TagRow) (h : validate_tags value = .ok res) :
    value ≠ [] ∧ (value.map (fun t => t.id)).Nodup := by
  unfold validate_tags at h
  split at h
  case isTrue => exact Except.noConfusion h
  case isFalse hne =>
    obtain ⟨x, hx, _⟩ := except_map_ok h
    refine ⟨?_, (dupTagCheck_ok value [] x hx).1⟩
    intro hnil
    rw [hnil] at hne
    exact hne rfl

/-- Entry resolution is faithful: on success the resolved entries carry the
requested ingredient ids and amounts in order, every fetched ingredient is a
stored row, and every amount passed `MinValueValidator(1)`. -/
lemma resolveEntries_ok : ∀ (db : DB) (raws : List IngredientEntry)
    (rents : List ResolvedEntry), resolveEntries db raws = .ok rents →
    rents.map (fun e => e.ingredient.id) = raws.map (fun e => e.id) ∧
    rents.map (fun e => e.amount) = raws.map (fun e => e.amount) ∧
    ∀ e ∈ rents, e.ingredient ∈ db.ingredients ∧ 1 ≤ e.amount := by
  intro db raws
  induction raws with
  | nil =>
    intro rents h
    injection h with h2
    rw [← h2]
    simp
  | cons e rest ih =>
    intro rents h
    unfold resolveEntries at h
    split at h
    · exact Except.noConfusion h
    · rename_i ing hf
      split at h
      case isTrue => exact Except.noConfusion h
      case isFalse hamt =>
        obtain ⟨l', hl', heq⟩ := except_map_ok h
        obtain ⟨hids, hamts, hall⟩ := ih l' hl'
        have hid : ing.id = e.id := by
          have := List.find?_some hf
          simpa using this
        have hmem : ing ∈ db.ingredients := List.mem_of_find?_eq_some hf
        rw [← heq]
        refine ⟨by simp [hids, hid], by simp [hamts], ?_⟩
        intro x hx
        rw [List.mem_cons] at hx
        rcases hx with hx | hx
        · rw [hx]
          refine ⟨hmem, ?_⟩
          show (1 : Int) ≤ e.amount
          omega
        · exact hall x hx

/-- A successful `validIngrGo` scan certifies distinct ingredient ids, all
outside the starting `seen` set. -/
lemma validIngrGo_ok : ∀ (db : DB) (value : List ResolvedEntry) (seen : List Nat)
    (res : List ResolvedEntry), validIngrGo db value seen = .ok res →
    (value.map (fun e => e.ingredient.id)).Nodup ∧
    ∀ i ∈ value.map (fun e => e.ingredient.id), i ∉ seen := by
  intro db value
  induction value with
  | nil => intro seen res _; simp
  | cons e rest ih =>
    intro seen res h
    unfold validIngrGo at h
    split at h
    · exact Except.noConfusion h
    · rename_i ing hf
      split at h
      case isTrue => exact Except.noConfusion h
      case isFalse hseen =>
        split at h
        case isTrue => exact Except.noConfusion h
        case isFalse =>
          obtain ⟨l', hl', _⟩ := except_map_ok h
          obtain ⟨hnodup, hout⟩ := ih (e.ingredient.id :: seen) l' hl'
          constructor
          · rw [List.map_cons, List.nodup_cons]
            refine ⟨?_, hnodup⟩
            intro hmem
            exact hout e.ingredient.id hmem (List.mem_cons_self _ seen)
          · intro i hi
            rw [List.map_cons, List.mem_cons] at hi
            rcases hi with hi | hi
            · rw [hi]; exact hseen
            · intro hin
              exact hout i hi (List.mem_cons_of_mem _ hin)

/-- A successful `validate_ingredients` certifies a non-empty list with
distinct ingredient ids. -/
lemma validate_ingredients_ok (db : DB) (value res : List ResolvedEntry)
    (h : validate_ingredients db value = .ok res) :
    value ≠ [] ∧ (value.map (fun e => e.ingredient.id)).Nodup := by
  unfold validate_ingredients at h
  split at h
  case isTrue => exact Except.noConfusion h
  case isFalse hne =>
    refine ⟨?_, (validIngrGo_ok db value [] res h).1⟩
    intro hnil
    rw [hnil] at hne
    exact hne rfl

/-- Soundness of a successful validation run: the payload's tag list is
non-empty and duplicate-free, its ingredient list is non-empty and
duplicate-free, every referenced ingredient id is stored, and every amount
is at least 1. -/
lemma runValidation_ok_sound (db : DB) (p : RecipePayload) (v : ValidatedRecipe)
    (h : runValidation db p = .ok v) :
    p.tags ≠ [] ∧ p.tags.Nodup ∧ p.ingredients ≠ [] ∧
    (∀ e ∈ p.ingredients, ∃ i ∈ db.ingredients, i.id = e.id) ∧
    (p.ingredients.map (fun e => e.id)).Nodup ∧
    (∀ e ∈ p.ingredients, 1 ≤ e.amount) := by
  unfold runValidation at h
  split at h
  · exact Except.noConfusion h
  rename_i rtags h1
  split at h
  · exact Except.noConfusion h
  rename_i vtags h2
  split at h
  · exact Except.noConfusion h
  rename_i rents h3
  split at h
  · exact Except.noConfusion h
  rename_i vents h4
  have hids := resolveTags_ok_ids db p.tags rtags h1
  obtain ⟨htne, htnodup⟩ := validate_tags_ok rtags vtags h2
  obtain ⟨heids, heamts, hall⟩ := resolveEntries_ok db p.ingredients rents h3
  obtain ⟨hine, hinodup⟩ := validate_ingredients_ok db rents vents h4
  refine ⟨?_, ?_, ?_, ?_, ?_, ?_⟩
  · intro hnil
    rw [hnil] at hids
    rw [List.map_eq_nil_iff] at hids
    rw [hids] at htne
    exact htne rfl
  · rw [← hids]; exact htnodup
  · intro hnil
    rw [hnil] at heids
    simp only [List.map_nil, List.map_eq_nil_iff] at heids
    exact hine heids
  · intro e he
    have hmem : e.id ∈ rents.map (fun x => x.ingredient.id) := by
      rw [heids]
      exact List.mem_map_of_mem _ he
    obtain ⟨re, hre, hreid⟩ := List.mem_map.mp hmem
    exact ⟨re.ingredient, (hall re hre).1, hreid⟩
  · rw [← heids]; exact hinodup
  · intro e he
    have hmem : e.amount ∈ rents.map (fun x => x.amount) := by
      rw [heamts]
      exact List.mem_map_of_mem _ he
    obtain ⟨re, hre, hream⟩ := List.mem_map.mp hmem
    rw [← hream]
    exact (hall re hre).2

/-- C2: recipe payload validation rejects — with a validation error, and
leaving the state untouched, so creating no recipe row and no join row —
every payload whose tag list is empty or holds a duplicate tag id, and
every payload whose ingredient list is empty, references an unknown
ingredient id, holds a duplicate ingredient id, or holds an amount below
1. -/
theorem C2_reject_invalid_payload : ∀ (db : DB) (author : Option Nat) (p : RecipePayload),
    (p.tags = [] ∨ ¬ p.tags.Nodup ∨ p.ingredients = [] ∨
     (∃ e ∈ p.ingredients, ∀ i ∈ db.ingredients, i.id ≠ e.id) ∨
     ¬ (p.ingredients.map (fun e => e.id)).Nodup ∨
     (∃ e ∈ p.ingredients, e.amount < 1)) →
    (∃ m, runValidation db p = .error m) ∧
    (recipeCreateEndpoint db author p).1 = db ∧
    (∃ m, (recipeCreateEndpoint db author p).2 = .error m) := by
  intro db author p hbad
  have herr : ∃ m, runValidation db p = .error m := by
    cases hr : runValidation db p with
    | error m => exact ⟨m, rfl⟩
    | ok v =>
      exfalso
      obtain ⟨ht1, ht2, ht3, ht4, ht5, ht6⟩ := runValidation_ok_sound db p v hr
      rcases hbad with h | h | h | ⟨e, he, hne⟩ | h | ⟨e, he, hlt⟩
      · exact ht1 h
      · exact h ht2
      · exact ht3 h
      · obtain ⟨i, hi, hid⟩ := ht4 e he
        exact hne i hi hid
      · exact h ht5
      · have := ht6 e he
        omega
  obtain ⟨m, hm⟩ := herr
  have hbind : (runValidation db p).bind (recipeCreateTx db author) = .error m := by
    rw [hm]
    rfl
  refine ⟨⟨m, hm⟩, ?_, ⟨m, ?_⟩⟩
  · unfold recipeCreateEndpoint
    rw [hbind]
  · unfold recipeCreateEndpoint
    rw [hbind]

/-- Inserting one row updates exactly the looked-up total of its key. -/
lemma lookupAgg_insertAgg (acc : List (AggKey × Int)) (k : AggKey) (a : Int) (k' : AggKey) :
    lookupAgg (insertAgg acc k a) k' =
      if k' = k then some ((lookupAgg acc k).getD 0 + a) else lookupAgg acc k' := by
  induction acc with
  | nil =>
    by_cases h : k' = k
    · subst h; simp [insertAgg, lookupAgg]
    · simp [insertAgg, lookupAgg, h, Ne.symm h]
  | cons hd tl ih =>
    obtain ⟨k1, s⟩ := hd
    simp only [insertAgg]
    by_cases h1 : k1 = k
    · rw [if_pos h1]
      subst h1
      by_cases h2 : k' = k1
      · subst h2
        simp [lookupAgg]
      · rw [if_neg h2]
        unfold lookupAgg
        rw [List.find?_cons_of_neg _ (by simpa using Ne.symm h2),
          List.find?_cons_of_neg _ (by simpa using Ne.symm h2)]
    · rw [if_neg h1]
      by_cases h2 : k' = k1
      · subst h2
        have h3 : ¬ k' = k := fun hc => h1 (hc ▸ rfl)
        rw [if_neg h3]
        unfold lookupAgg
        rw [List.find?_cons_of_pos _ (by simp), List.find?_cons_of_pos _ (by simp)]
      · unfold lookupAgg
        rw [List.find?_cons_of_neg _ (by simpa using Ne.symm h2)]
        by_cases h3 : k' = k
        · rw [if_pos h3]
          rw [List.find?_cons_of_neg _ (by simpa using h1)]
          have hih := ih
          unfold lookupAgg at hih
          rw [if_pos h3] at hih
          exact hih
        · rw [if_neg h3]
          rw [List.find?_cons_of_neg _ (by simpa using Ne.symm h2)]
          have hih := ih
          unfold lookupAgg at hih
          rw [if_neg h3] at hih
          exact hih

/-- Folding rows into an aggregation adds each key's summed amount to the
starting total. -/
lemma lookupAgg_foldl : ∀ (rows : List (AggKey × Int)) (acc : List (AggKey × Int)) (k : AggKey),
    lookupAgg (rows.foldl (fun a r => insertAgg a r.1 r.2) acc) k =
      if rows.any (fun r => r.1 = k) then some ((lookupAgg acc k).getD 0 + sumKey rows k)
      else lookupAgg acc k := by
  intro rows
  induction rows with
  | nil => intro acc k; simp [sumKey]
  | cons r rest ih =>
    intro acc k
    rw [List.foldl_cons, ih (insertAgg acc r.1 r.2) k, lookupAgg_insertAgg]
    by_cases hk : r.1 = k
    · have hk2 : k = r.1 := hk.symm
      rw [if_pos hk2]
      have hany : (r :: rest).any (fun x => x.1 = k) = true := by
        simp [List.any_cons, hk]
      rw [if_pos hany, hk]
      have hsum : sumKey (r :: rest) k = r.2 + sumKey rest k := by
        simp [sumKey, List.filter_cons, hk]
      rw [hsum]
      by_cases hrest : rest.any (fun x => x.1 = k) = true
      · rw [if_pos hrest]
        simp only [Option.getD_some]
        congr 1
        exact add_assoc _ _ _
      · rw [if_neg hrest]
        simp only [Bool.not_eq_true] at hrest
        have hsum0 : sumKey rest k = 0 := by
          have hnil : rest.filter (fun x => x.1 = k) = [] := by
            rw [List.filter_eq_nil_iff]
            intro x hx
            have := List.any_eq_false.mp hrest x hx
            simpa using this
          simp [sumKey, hnil]
        rw [hsum0, add_zero]
    · have hk2 : ¬ k = r.1 := fun hc => hk hc.symm
      rw [if_neg hk2]
      have hany : (r :: rest).any (fun x => x.1 = k) = rest.any (fun x => x.1 = k) := by
        simp [List.any_cons, hk]
      have hsum : sumKey (r :: rest) k = sumKey rest k := by
        simp [sumKey, List.filter_cons, hk]
      rw [hany, hsum]

/-- Lookup after aggregation is exactly the key's summed amount. -/
lemma lookupAgg_aggregate (rows : List (AggKey × Int)) (k : AggKey) :
    lookupAgg (aggregate rows) k =
      if rows.any (fun r => r.1 = k) then some (sumKey rows k) else none := by
  unfold aggregate
  rw [lookupAgg_foldl]
  simp [lookupAgg]

/-- Keys of an aggregation after one insertion: unchanged for a known key,
extended by a fresh key. -/
lemma insertAgg_keys (acc : List (AggKey × Int)) (k : AggKey) (a : Int) :
    (insertAgg acc k a).map Prod.fst =
      if k ∈ acc.map Prod.fst then acc.map Prod.fst else acc.map Prod.fst ++ [k] := by
  induction acc with
  | nil => simp [insertAgg]
  | cons hd tl ih =>
    obtain ⟨k1, s⟩ := hd
    by_cases h1 : k1 = k
    · subst h1
      simp [insertAgg]
    · have : k ∈ k1 :: tl.map Prod.fst ↔ k ∈ tl.map Prod.fst := by
        simp [Ne.symm h1, fun hc : k = k1 => h1 hc.symm]
      by_cases h2 : k ∈ tl.map Prod.fst
      · simp [insertAgg, h1, ih, h2, this]
      · simp [insertAgg, h1, ih, h2, this]

/-- Aggregation keeps its keys duplicate-free. -/
lemma foldl_insertAgg_keys_nodup : ∀ (rows : List (AggKey × Int)) (acc : List (AggKey × Int)),
    (acc.map Prod.fst).Nodup →
    (((rows.foldl (fun a r => insertAgg a r.1 r.2) acc)).map Prod.fst).Nodup := by
  intro rows
  induction rows with
  | nil => intro acc h; simpa using h
  | cons r rest ih =>
    intro acc h
    rw [List.foldl_cons]
    apply ih
    rw [insertAgg_keys]
    by_cases hm : r.1 ∈ acc.map Prod.fst
    · simpa [hm] using h
    · rw [if_neg hm]
      exact nodup_concat_of_not_mem h hm

/-- In a keys-duplicate-free aggregation, lookup recovers each member. -/
lemma lookupAgg_of_mem : ∀ (agg : List (AggKey × Int)) (e : AggKey × Int),
    (agg.map Prod.fst).Nodup → e ∈ agg → lookupAgg agg e.1 = some e.2 := by
  intro agg
  induction agg with
  | nil => intro e _ he; cases he
  | cons hd tl ih =>
    intro e hnodup he
    rw [List.map_cons, List.nodup_cons] at hnodup
    rcases List.mem_cons.mp he with he | he
    · subst he
      simp [lookupAgg]
    · have hne : ¬ hd.1 = e.1 := by
        intro hc
        exact hnodup.1 (hc ▸ List.mem_map_of_mem Prod.fst he)
      unfold lookupAgg
      rw [List.find?_cons_of_neg]
      · exact ih e hnodup.2 he
      · simpa using hne

/-- Existence of a key in an aggregation matches existence in the rows. -/
lemma aggregate_mem_key_iff (rows : List (AggKey × Int)) (k : AggKey) :
    (∃ e ∈ aggregate rows, e.1 = k) ↔ ∃ r ∈ rows, r.1 = k := by
  have hlk := lookupAgg_aggregate rows k
  constructor
  · intro ⟨e, he, hek⟩
    have hsome : lookupAgg (aggregate rows) k = some e.2 := by
      rw [← hek]
      exact lookupAgg_of_mem _ e (foldl_insertAgg_keys_nodup rows [] (by simp)) he
    rw [hlk] at hsome
    by_cases hany : rows.any (fun r => r.1 = k) = true
    · simpa using List.any_eq_true.mp hany
    · rw [if_neg hany] at hsome
      exact Option.noConfusion hsome
  · intro ⟨r, hr, hrk⟩
    have hany : rows.any (fun x => x.1 = k) = true :=
      List.any_eq_true.mpr ⟨r, hr, by simpa using hrk⟩
    rw [if_pos hany] at hlk
    obtain ⟨e, hfind⟩ : ∃ e, (aggregate rows).find? (fun e => e.1 = k) = some e := by
      unfold lookupAgg at hlk
      cases hf : (aggregate rows).find? (fun e => e.1 = k) with
      | none => rw [hf] at hlk; exact Option.noConfusion hlk
      | some e => exact ⟨e, rfl⟩
    refine ⟨e, List.mem_of_find?_eq_some hfind, ?_⟩
    have := List.find?_some hfind
    simpa using this

/-- Each aggregated entry carries the sum of the amounts of its key. -/
lemma aggregate_mem_total (rows : List (AggKey × Int)) (e : AggKey × Int)
    (he : e ∈ aggregate rows) : e.2 = sumKey rows e.1 := by
  have hsome : lookupAgg (aggregate rows) e.1 = some e.2 :=
    lookupAgg_of_mem _ e (foldl_insertAgg_keys_nodup rows [] (by simp)) he
  rw [lookupAgg_aggregate] at hsome
  by_cases hany : rows.any (fun r => r.1 = e.1) = true
  · rw [if_pos hany] at hsome
    exact (Option.some.inj hsome).symm
  · rw [if_neg hany] at hsome
    exact Option.noConfusion hsome

/-- C3: the shopping list groups the join rows of every recipe in the
user's cart by `(ingredient name, measurement unit)` and sums their
amounts: the aggregation holds exactly one entry per distinct key occurring
in the cart's rows, each entry's total is the sum of its key's amounts, and
the output prints one numbered line per entry; on the spec's example cart
the output is exactly one Salt line with total 5 and one Pepper line with
total 1. -/
theorem C3_shopping_list_aggregation : ∀ (db : DB) (u : Nat),
    ((aggregate (cartKeyedRows db u)).map Prod.fst).Nodup ∧
    (∀ k, (∃ e ∈ aggregate (cartKeyedRows db u), e.1 = k) ↔
      ∃ r ∈ cartKeyedRows db u, r.1 = k) ∧
    (∀ e ∈ aggregate (cartKeyedRows db u), e.2 = sumKey (cartKeyedRows db u) e.1) ∧
    generate_shopping_cart db u = "Список покупок: \n\n" ++
      String.intercalate "\n" ((aggregate (cartKeyedRows db u)).enum.map
        (fun q => shoppingLine q.1 q.2)) ∧
    generate_shopping_cart cartExampleDB 7 =
      "Список покупок: \n\n1. Salt: 5 g\n2. Pepper: 1 g" := by
  intro db u
  refine ⟨foldl_insertAgg_keys_nodup _ [] (by simp),
    fun k => aggregate_mem_key_iff _ k,
    fun e he => aggregate_mem_total _ e he,
    rfl, by rfl⟩

/-- Witness for C3 at the spec's example: the aggregated Salt entry indeed
carries total 5, the sum of Salt's amounts 2 and 3 across the cart. -/
theorem C3_shopping_list_aggregation_witness :
    (5 : Int) = sumKey (cartKeyedRows cartExampleDB 7) ("Salt", "g") :=
  (C3_shopping_list_aggregation cartExampleDB 7).2.2.1 (("Salt", "g"), 5) (by decide)

/-- Witness for C2 at a concrete input: the empty-tags payload is rejected
by validation and leaves `createExampleDB` unchanged. -/
theorem C2_reject_invalid_payload_witness :
    (∃ m, runValidation createExampleDB badPayload = .error m) ∧
    (recipeCreateEndpoint createExampleDB none badPayload).1 = createExampleDB ∧
    (∃ m, (recipeCreateEndpoint createExampleDB none badPayload).2 = .error m) :=
  C2_reject_invalid_payload createExampleDB none badPayload (Or.inl rfl)

/-- When every entry's fetched ingredient is a stored row — which
`resolveEntries` guarantees — the `Ingredient.DoesNotExist` branch of the
`validate_ingredients` loop can never fire. -/
lemma validIngrGo_ne_nonexistent : ∀ (db : DB) (value : List ResolvedEntry)
    (seen : List Nat), (∀ e ∈ value, e.ingredient ∈ db.ingredients) →
    validIngrGo db value seen ≠ .error "Несуществующий ингредиент." := by
  intro db value
  induction value with
  | nil =>
    intro seen _ hcontra
    exact Except.noConfusion hcontra
  | cons e rest ih =>
    intro seen hmem hcontra
    unfold validIngrGo at hcontra
    split at hcontra
    · rename_i hf
      have hall : ∀ x ∈ db.ingredients, ¬ ((fun i => decide (i.id = e.ingredient.id)) x = true) :=
        List.find?_eq_none.mp hf
      have hself := hall e.ingredient (hmem e (List.mem_cons_self e rest))
      simp at hself
    · rename_i ing hf
      split at hcontra
      case isTrue =>
        injection hcontra with hmsg
        exact absurd hmsg (by decide)
      case isFalse =>
        split at hcontra
        case isTrue =>
          injection hcontra with hmsg
          exact absurd hmsg (by decide)
        case isFalse =>
          cases hrec : validIngrGo db rest (e.ingredient.id :: seen) with
          | error m =>
            rw [hrec] at hcontra
            simp only [Except.map] at hcontra
            injection hcontra with hmsg
            rw [hmsg] at hrec
            exact ih (e.ingredient.id :: seen)
              (fun x hx => hmem x (List.mem_cons_of_mem _ hx)) hrec
          | ok l =>
            rw [hrec] at hcontra
            simp only [Except.map] at hcontra
            exact Except.noConfusion hcontra

/-- C9: the `Ingredient.DoesNotExist` handler inside
`RecipeSerializer.validate_ingredients` is unreachable: every entry that
reaches it went through `PrimaryKeyRelatedField` resolution, which only
produces stored ingredients, so the nonexistent-ingredient error can never
be raised. -/
theorem C9_nonexistent_branch_unreachable : ∀ (db : DB) (raws : List IngredientEntry)
    (rents : List ResolvedEntry), resolveEntries db raws = .ok rents →
    validate_ingredients db rents ≠ .error "Несуществующий ингредиент." := by
  intro db raws rents hres
  have hmem : ∀ e ∈ rents, e.ingredient ∈ db.ingredients :=
    fun e he => ((resolveEntries_ok db raws rents hres).2.2 e he).1
  unfold validate_ingredients
  split
  case isTrue =>
    intro hcontra
    injection hcontra with hmsg
    exact absurd hmsg (by decide)
  case isFalse =>
    exact validIngrGo_ne_nonexistent db rents [] hmem

/-- Witness for C9 at a concrete input: the resolved Salt entry passes
through `validate_ingredients` without ever reaching the
nonexistent-ingredient branch. -/
theorem C9_nonexistent_branch_unreachable_witness :
    validate_ingredients createExampleDB [⟨⟨1, "Salt", "g"⟩, 2⟩] ≠
      .error "Несуществующий ингредиент." :=
  C9_nonexistent_branch_unreachable createExampleDB [⟨1, 2⟩] [⟨⟨1, "Salt", "g"⟩, 2⟩] rfl

/-- Witness for C4 at a concrete state: in the empty database the first
favorite add of `(recipe 1, user 2)` succeeds, and after it the duplicate
add fails with exactly one matching row stored. -/
theorem C4_membership_toggle_witness :
    favoriteAdd emptyDB 1 2 = .ok { emptyDB with favorites := [⟨1, 2⟩] } ∧
    ((∃ m, favoriteAdd { emptyDB with favorites := [⟨1, 2⟩] } 1 2 = .error m) ∧
      (({ emptyDB with favorites := [⟨1, 2⟩] } : DB).favorites.countP
        (fun x => x.recipe = 1 && x.user = 2) = 1)) :=
  ⟨(C4_membership_toggle emptyDB 1 2).2.1 rfl,
   (C4_membership_toggle emptyDB 1 2).2.2.2.2.2.2.2.2.1 rfl
     { emptyDB with favorites := [⟨1, 2⟩] }
     ((C4_membership_toggle emptyDB 1 2).2.1 rfl)⟩

end RecipesBook
